import Mathlib

set_option maxHeartbeats 1000000

namespace BootPrint

/-- An RGBA texel with integer channels, as PIL stores pixels of an RGBA image. -/
structure RGBA where
  r : ℤ
  g : ℤ
  b : ℤ
  a : ℤ
deriving DecidableEq, Repr

/-- A pixel buffer, modelled as a total function from (x, y) to the texel there.
Pixels never written keep the creation fill; the scripts only write in bounds. -/
def Img : Type := ℤ → ℤ → RGBA

/-- PIL `img.putpixel((x, y), c)`: point update of the buffer. -/
def putpixel (im : Img) (x y : ℤ) (c : RGBA) : Img :=
  fun u v => if u = x ∧ v = y then c else im u v

/-- Python `range(a, b)` over integers (step 1). -/
def intRange (a b : ℤ) : List ℤ :=
  (List.range (b - a).toNat).map (fun i : ℕ => a + (i : ℤ))

/-- Python `range(a, b, s)` for a positive step `s`. -/
def intRangeStep (a b s : ℤ) : List ℤ :=
  (List.range (((b - a) + s - 1) / s).toNat).map (fun i : ℕ => a + s * (i : ℤ))

/-- Python `for x in range(xl, xr + 1): img.putpixel((x, y), c)`:
write the color to one horizontal run of texels. -/
def fillRow (im : Img) (y xl xr : ℤ) (c : RGBA) : Img :=
  (intRange xl (xr + 1)).foldl (fun im2 x => putpixel im2 x y c) im

end BootPrint

namespace GenerateBootPrint

open BootPrint

/-- Main blood color `blood_main = (180, 25, 25, 255)` of generate_boot_print.py. -/
def blood_main : RGBA := ⟨180, 25, 25, 255⟩

/-- Edge color `blood_edge = (140, 15, 15, 255)` of generate_boot_print.py. -/
def blood_edge : RGBA := ⟨140, 15, 15, 255⟩

/-- Tread-gap color `transparent = (0, 0, 0, 0)` of generate_boot_print.py. -/
def transparent : RGBA := ⟨0, 0, 0, 0⟩

/-- Color of a committed splatter droplet, `(180, 25, 25, 150)` (pass 4). -/
def splat_color : RGBA := ⟨180, 25, 25, 150⟩

/-- Image.new('RGBA', (width, height), (0, 0, 0, 0)): the freshly created,
fully transparent canvas. -/
def emptyImg : Img := fun _ _ => transparent

/-- The silhouette profile `get_width_factor(rel_y)` of generate_boot_print.py,
embedded over the reals (the script computes it in floating point with
`math.cos`; the formulas are carried over verbatim). -/
noncomputable def get_width_factor (rel_y : ℝ) : ℝ :=
  if rel_y < 0.30 then 0.90 + 0.10 * Real.cos (rel_y / 0.30 * Real.pi / 2)
  else if rel_y < 0.50 then 0.90 - 0.25 * ((rel_y - 0.30) / 0.20)
  else if rel_y < 0.60 then 0.65
  else 0.65 + 0.30 * ((rel_y - 0.60) / 0.40)

/-- Specification-side profile: the band table of spec section 4.1, written from
the spec's words ("linear narrowing from 0.90 to 0.65", "constant 0.65",
"linear widening from 0.65 to 0.95", boundaries inclusive below and exclusive
above except the final band). Used only to compare with `get_width_factor`. -/
noncomputable def spec_width_factor (relativeY : ℝ) : ℝ :=
  if 0 ≤ relativeY ∧ relativeY < 0.30 then
    0.90 + 0.10 * Real.cos (relativeY / 0.30 * Real.pi / 2)
  else if 0.30 ≤ relativeY ∧ relativeY < 0.50 then
    0.90 + (0.65 - 0.90) * ((relativeY - 0.30) / (0.50 - 0.30))
  else if 0.50 ≤ relativeY ∧ relativeY < 0.60 then 0.65
  else 0.65 + (0.95 - 0.65) * ((relativeY - 0.60) / (1.0 - 0.60))

/-- First pass of create_boot_print: for each row y in [sole_top, sole_bottom)
(sole_top = margin_y = 3, sole_bottom = height - 3) fill the clamped span
[max 0 (center_x - actual_half), min (width-1) (center_x + actual_half)] with
blood_main.  `ah y` stands for the script's
`actual_half = int(half_width * get_width_factor(rel_y))` at row y, taken as a
parameter because the script computes it in floating point. -/
def pass1 (width height : ℤ) (ah : ℤ → ℤ) (img : Img) : Img :=
  (intRange 3 (height - 3)).foldl
    (fun im y =>
      fillRow im y (max 0 (width / 2 - ah y)) (min (width - 1) (width / 2 + ah y)) blood_main)
    img

/-- One iteration of the second pass of create_boot_print at tread row t:
for gap in range(tread_gap = 2), if t + gap < sole_bottom - 2, reset the inset
span [max 0 (center_x - actual_half + 2), min (width-1) (center_x + actual_half - 2)]
of row t + gap to transparent. -/
def carveTread (width height : ℤ) (ah : ℤ → ℤ) (im : Img) (t : ℤ) : Img :=
  (intRange 0 2).foldl
    (fun im2 gap =>
      if t + gap < height - 3 - 2 then
        fillRow im2 (t + gap) (max 0 (width / 2 - ah t + 2))
          (min (width - 1) (width / 2 + ah t - 2)) transparent
      else im2)
    im

/-- Second pass of create_boot_print: tread-gap carving, iterating
`for tread_y in range(sole_top + 3, sole_bottom - 3, tread_spacing = 4)`. -/
def pass2 (width height : ℤ) (ah : ℤ → ℤ) (img : Img) : Img :=
  (intRangeStep (3 + 3) (height - 3 - 3) 4).foldl (carveTread width height ah) img

/-- Texel (x, y) is targeted by the tread at row t: y is one of the two gap
rows of t, below the bottom guard, and x lies in the inset clamped span of t. -/
def carveCond (width height : ℤ) (ah : ℤ → ℤ) (t x y : ℤ) : Prop :=
  (y = t ∨ y = t + 1) ∧ y < height - 3 - 2 ∧
    max 0 (width / 2 - ah t + 2) ≤ x ∧ x ≤ min (width - 1) (width / 2 + ah t - 2)

instance (width height : ℤ) (ah : ℤ → ℤ) (t x y : ℤ) :
    Decidable (carveCond width height ah t x y) := by
  unfold carveCond; infer_instance

/-- Texels targeted by the carving pass: some tread row of pass 2 covers them. -/
def carved (width height : ℤ) (ah : ℤ → ℤ) (x y : ℤ) : Bool :=
  (intRangeStep (3 + 3) (height - 3 - 3) 4).any (fun t =>
    decide (carveCond width height ah t x y))

/-- The conditional recolor of the third pass: if the texel's current alpha is
positive, overwrite it with blood_edge, else leave the buffer unchanged. -/
def shadePixel (im : Img) (x y : ℤ) : Img :=
  if 0 < (im x y).a then putpixel im x y blood_edge else im

/-- One row of the third pass: for edge_offset in range(2), shade
x_left + edge_offset (guarded by `< width`) and x_right - edge_offset
(guarded by `>= 0`), where x_left/x_right are the clamped span ends of row y. -/
def shadeRow (width : ℤ) (ah : ℤ → ℤ) (im : Img) (y : ℤ) : Img :=
  (intRange 0 2).foldl
    (fun im2 off =>
      let xl := max 0 (width / 2 - ah y)
      let xr := min (width - 1) (width / 2 + ah y)
      let im3 := if xl + off < width then shadePixel im2 (xl + off) y else im2
      if 0 ≤ xr - off then shadePixel im3 (xr - off) y else im3)
    im

/-- Third pass of create_boot_print: darken the outermost two texels on each
side of every row, but only where the current alpha is positive. -/
def pass3 (width height : ℤ) (ah : ℤ → ℤ) (img : Img) : Img :=
  (intRange 3 (height - 3)).foldl (shadeRow width ah) img

/-- One droplet candidate of the fourth pass: commit the splat color at
(splat_x, splat_y) only if the point is inside the buffer bounds and the
target texel currently has alpha 0. -/
def splatStep (width height : ℤ) (im : Img) (c : ℤ × ℤ) : Img :=
  if 0 ≤ c.1 ∧ c.1 < width ∧ 0 ≤ c.2 ∧ c.2 < height then
    if (im c.1 c.2).a = 0 then putpixel im c.1 c.2 splat_color else im
  else im

/-- Fourth pass of create_boot_print: the stochastic splatter.  The script
derives each candidate (splat_x, splat_y) from `random` (seeded with 42) by a
floating-point polar displacement off the silhouette edge; the resulting
candidate coordinates are taken here as the parameter list `cs`, so every
theorem below holds for every value of the seeded stream. -/
def pass4 (width height : ℤ) (im : Img) (cs : List (ℤ × ℤ)) : Img :=
  cs.foldl (splatStep width height) im

/-- create_boot_print of generate_boot_print.py: the four passes run in order
on the fresh transparent canvas. -/
def create_boot_print (width height : ℤ) (ah : ℤ → ℤ) (cs : List (ℤ × ℤ)) : Img :=
  pass4 width height (pass3 width height ah (pass2 width height ah (pass1 width height ah emptyImg))) cs

/-- PIL transpose(Image.FLIP_LEFT_RIGHT): horizontal mirror of a buffer of the
given width, column x taken from column width - 1 - x. -/
def flipH (width : ℤ) (im : Img) : Img := fun x y => im (width - 1 - x) y

/-- create_left_right_boot_prints of generate_boot_print.py: synthesize the
right foot at 32 x 48, derive the left foot purely by horizontal reflection. -/
def create_left_right_boot_prints (ah : ℤ → ℤ) (cs : List (ℤ × ℤ)) : Img × Img :=
  (create_boot_print 32 48 ah cs, flipH 32 (create_boot_print 32 48 ah cs))

/-- Number of filled texels (alpha nonzero) in the w x h canvas. -/
def filledCount (w h : ℕ) (im : Img) : ℕ :=
  ((Finset.range w ×ˢ Finset.range h).filter
    (fun p => (im (p.1 : ℤ) (p.2 : ℤ)).a ≠ 0)).card

/-- Number of solid (fully opaque, alpha = 255) texels in the w x h canvas. -/
def solidCount (w h : ℕ) (im : Img) : ℕ :=
  ((Finset.range w ×ˢ Finset.range h).filter
    (fun p => (im (p.1 : ℤ) (p.2 : ℤ)).a = 255)).card

/-- A concrete half-width table used to instantiate the witnesses: the constant
13, the script's value of `half_width` at width 32. -/
def ahConst : ℤ → ℤ := fun _ => 13

/-- Persistence events of create_left_right_boot_prints, in program order. -/
inductive SaveEvent
| rightFile
| leftFile
deriving DecidableEq, Repr

/-- Order of the file writes performed by one run of
create_left_right_boot_prints: `img.save(output_path)` inside
create_boot_print writes boot_print_right.png first, then the flipped buffer
is saved to boot_print_left.png.  There is no temp-then-rename step. -/
def saveEvents : List SaveEvent := [SaveEvent.rightFile, SaveEvent.leftFile]

/-- Texel (x, y) lies inside a w x h buffer. -/
def inBounds (w h x y : ℤ) : Prop := 0 ≤ x ∧ x < w ∧ 0 ≤ y ∧ y < h

instance (w h x y : ℤ) : Decidable (inBounds w h x y) := by
  unfold inBounds; infer_instance

/-- Invariant of the shading pass: each texel is unchanged or recolored to
blood_edge, the latter only where the input alpha was positive. -/
def shadeInv (im0 im : Img) : Prop :=
  ∀ x y, im x y = im0 x y ∨ (im x y = blood_edge ∧ 0 < (im0 x y).a)

/-- Invariant of the splatter pass: each texel is unchanged or committed as a
droplet, the latter only in bounds and where the input alpha was zero. -/
def splatInv (w h : ℤ) (im0 im : Img) : Prop :=
  ∀ x y, im x y = im0 x y ∨
    (im x y = splat_color ∧ (im0 x y).a = 0 ∧ 0 ≤ x ∧ x < w ∧ 0 ≤ y ∧ y < h)

end GenerateBootPrint

namespace RoundedBootPrints

open BootPrint

/-- CANVAS_WIDTH of create_rounded_boot_prints.py. -/
def CANVAS_WIDTH : ℤ := 22

/-- CANVAS_HEIGHT of create_rounded_boot_prints.py. -/
def CANVAS_HEIGHT : ℤ := 40

/-- BOOT_COLOR = (139, 0, 0, 255) of create_rounded_boot_prints.py. -/
def BOOT_COLOR : RGBA := ⟨139, 0, 0, 255⟩

/-- TRANSPARENT = (0, 0, 0, 0) of create_rounded_boot_prints.py. -/
def TRANSPARENT : RGBA := ⟨0, 0, 0, 0⟩

/-- Modelled from the spec: the raster library's filled-ellipse primitive
(`drawEllipse`) is an excluded external collaborator ("consumed as a black
box"), so it is modelled here as filling exactly the integer points of the
bounding box [x0, x1] x [y0, y1] that satisfy the inscribed-ellipse equation
(scaled by 4 to stay in integers).  Every claim settled against it uses only
that the primitive writes nowhere outside its bounding box. -/
def ellipsePixel (x0 y0 x1 y1 x y : ℤ) : Bool :=
  decide ((2 * x - (x0 + x1)) ^ 2 * (y1 - y0) ^ 2 + (2 * y - (y0 + y1)) ^ 2 * (x1 - x0) ^ 2
    ≤ (x1 - x0) ^ 2 * (y1 - y0) ^ 2)

/-- Modelled from the spec: PIL `draw.ellipse([x0, y0, x1, y1], fill = c)`,
restricted to its bounding box as described at `ellipsePixel`. -/
def drawEllipse (im : Img) (x0 y0 x1 y1 : ℤ) (c : RGBA) : Img :=
  fun x y =>
    if x0 ≤ x ∧ x ≤ x1 ∧ y0 ≤ y ∧ y ≤ y1 ∧ ellipsePixel x0 y0 x1 y1 x y then c
    else im x y

/-- create_boot_print(is_left) of create_rounded_boot_prints.py: four filled
ellipses (heel, arch, ball, toe) whose x positions are offset by +-1 according
to handedness, followed by an unconditionally written connecting strip of
varying width around the center column.  Left and right are produced by two
independent runs of this function. -/
def create_boot_print (is_left : Bool) : Img :=
  let cx := CANVAS_WIDTH / 2
  let cy := CANVAS_HEIGHT / 2
  let boot_height : ℤ := 18
  let start_y := cy - boot_height / 2
  let offset : ℤ := if is_left then 1 else -1
  let img0 : Img := fun _ _ => TRANSPARENT
  let heel_width : ℤ := 7
  let heel_height : ℤ := 6
  let heel_x := cx - heel_width / 2 + offset
  let heel_y := start_y + boot_height - heel_height
  let img1 := drawEllipse img0 heel_x heel_y (heel_x + heel_width) (heel_y + heel_height) BOOT_COLOR
  let arch_width : ℤ := 4
  let arch_height : ℤ := 4
  let arch_x := cx - arch_width / 2 + offset
  let arch_y := start_y + boot_height - heel_height - arch_height + 2
  let img2 := drawEllipse img1 arch_x arch_y (arch_x + arch_width) (arch_y + arch_height + 2) BOOT_COLOR
  let ball_width : ℤ := 8
  let ball_height : ℤ := 6
  let ball_x := cx - ball_width / 2 - offset
  let ball_y := start_y + 4
  let img3 := drawEllipse img2 ball_x ball_y (ball_x + ball_width) (ball_y + ball_height) BOOT_COLOR
  let toe_width : ℤ := 7
  let toe_height : ℤ := 5
  let toe_x := cx - toe_width / 2 - offset
  let toe_y := start_y
  let img4 := drawEllipse img3 toe_x toe_y (toe_x + toe_width) (toe_y + toe_height) BOOT_COLOR
  (intRange (start_y + 3) (start_y + boot_height - 2)).foldl
    (fun im y =>
      let w : ℤ :=
        if start_y + boot_height - heel_height < y then 5
        else if start_y + boot_height - heel_height - arch_height + 1 < y then 3
        else if start_y + 6 < y then 4
        else 6
      (intRange (cx - w / 2) (cx + w / 2 + 1)).foldl
        (fun im2 x =>
          if 0 ≤ x ∧ x < CANVAS_WIDTH ∧ 0 ≤ y ∧ y < CANVAS_HEIGHT then
            putpixel im2 x y BOOT_COLOR
          else im2)
        im)
    img4

end RoundedBootPrints


namespace BootPrint

theorem intRange_mem (a b x : ℤ) : x ∈ intRange a b ↔ a ≤ x ∧ x < b := by
  simp only [intRange, List.mem_map, List.mem_range]
  constructor
  · rintro ⟨i, hi, rfl⟩
    omega
  · rintro ⟨h1, h2⟩
    exact ⟨(x - a).toNat, by omega, by omega⟩

theorem intRangeStep_lower (a b s x : ℤ) (hs : 0 ≤ s) (h : x ∈ intRangeStep a b s) :
    a ≤ x := by
  simp only [intRangeStep, List.mem_map, List.mem_range] at h
  obtain ⟨i, _, rfl⟩ := h
  have : 0 ≤ s * (i : ℤ) := mul_nonneg hs (by positivity)
  omega

theorem putpixel_apply (im : Img) (x y u v : ℤ) (c : RGBA) :
    putpixel im x y c u v = if u = x ∧ v = y then c else im u v := rfl

theorem foldl_fill_apply (l : List ℤ) (im : Img) (y : ℤ) (c : RGBA) (u v : ℤ) :
    (l.foldl (fun im2 x => putpixel im2 x y c) im) u v =
      if v = y ∧ u ∈ l then c else im u v := by
  induction l generalizing im with
  | nil => simp
  | cons h t ih =>
      rw [List.foldl_cons, ih]
      by_cases h1 : v = y
      · by_cases h2 : u ∈ t
        · simp [h1, h2]
        · by_cases h3 : u = h
          · simp [h1, h2, h3, putpixel]
          · simp [h1, h2, h3, putpixel]
      · simp [h1, putpixel]

theorem fillRow_apply (im : Img) (y xl xr : ℤ) (c : RGBA) (u v : ℤ) :
    fillRow im y xl xr c u v = if v = y ∧ xl ≤ u ∧ u ≤ xr then c else im u v := by
  rw [fillRow, foldl_fill_apply]
  by_cases h1 : v = y
  · by_cases h2 : xl ≤ u ∧ u ≤ xr
    · rw [if_pos ⟨h1, (intRange_mem xl (xr + 1) u).mpr (by omega)⟩, if_pos ⟨h1, h2⟩]
    · rw [if_neg, if_neg]
      · exact fun h => h2 ⟨h.2.1, h.2.2⟩
      · intro h
        have := (intRange_mem xl (xr + 1) u).mp h.2
        omega
  · rw [if_neg (fun h => h1 h.1), if_neg (fun h => h1 h.1)]

theorem foldl_preserve {α β : Type} (P : β → Prop) (f : β → α → β)
    (h : ∀ b a, P b → P (f b a)) : ∀ (l : List α) (b : β), P b → P (l.foldl f b) := by
  intro l
  induction l with
  | nil => intro b hb; exact hb
  | cons a t ih => intro b hb; exact ih (f b a) (h b a hb)

theorem intRange_zero_two : intRange 0 2 = [0, 1] := by decide

end BootPrint

namespace GenerateBootPrint

open BootPrint

theorem pass1_apply (w h : ℤ) (ah : ℤ → ℤ) (im : Img) (x y : ℤ) :
    pass1 w h ah im x y =
      if (3 ≤ y ∧ y < h - 3) ∧ max 0 (w / 2 - ah y) ≤ x ∧ x ≤ min (w - 1) (w / 2 + ah y) then
        blood_main
      else im x y := by
  rw [pass1]
  have main : ∀ (l : List ℤ) (im : Img),
      (l.foldl (fun im2 r =>
        fillRow im2 r (max 0 (w / 2 - ah r)) (min (w - 1) (w / 2 + ah r)) blood_main) im) x y =
      if y ∈ l ∧ max 0 (w / 2 - ah y) ≤ x ∧ x ≤ min (w - 1) (w / 2 + ah y) then blood_main
      else im x y := by
    intro l
    induction l with
    | nil => intro im; simp
    | cons r t ih =>
        intro im
        rw [List.foldl_cons, ih, fillRow_apply]
        by_cases h1 : y ∈ t ∧ max 0 (w / 2 - ah y) ≤ x ∧ x ≤ min (w - 1) (w / 2 + ah y)
        · rw [if_pos h1, if_pos ⟨List.mem_cons_of_mem r h1.1, h1.2⟩]
        · rw [if_neg h1]
          by_cases h2 : y = r
          · subst h2
            by_cases h3 : max 0 (w / 2 - ah y) ≤ x ∧ x ≤ min (w - 1) (w / 2 + ah y)
            · rw [if_pos ⟨rfl, h3⟩, if_pos ⟨List.mem_cons_self y t, h3⟩]
            · rw [if_neg (fun hc => h3 hc.2), if_neg (fun hc => h3 hc.2)]
          · rw [if_neg (fun hc => h2 hc.1), if_neg]
            intro hc
            rcases List.mem_cons.mp hc.1 with h4 | h4
            · exact h2 h4
            · exact h1 ⟨h4, hc.2⟩
  rw [main]
  simp only [intRange_mem]

theorem carveTread_apply (w h : ℤ) (ah : ℤ → ℤ) (im : Img) (t x y : ℤ) :
    carveTread w h ah im t x y =
      if carveCond w h ah t x y then transparent else im x y := by
  rw [carveTread, intRange_zero_two]
  simp only [List.foldl_cons, List.foldl_nil, add_zero]
  split_ifs <;> (try simp only [fillRow_apply]) <;> (try split_ifs) <;> (try rfl) <;>
    (simp only [carveCond] at *) <;> omega

theorem pass2_apply (w h : ℤ) (ah : ℤ → ℤ) (im : Img) (x y : ℤ) :
    pass2 w h ah im x y = if carved w h ah x y then transparent else im x y := by
  rw [pass2, carved]
  have main : ∀ (l : List ℤ) (im : Img),
      (l.foldl (carveTread w h ah) im) x y =
      if (l.any (fun t => decide (carveCond w h ah t x y))) = true then transparent
      else im x y := by
    intro l
    induction l with
    | nil => intro im; simp
    | cons r ts ih =>
        intro im
        rw [List.foldl_cons, ih, List.any_cons]
        by_cases hr : carveCond w h ah r x y
        · cases hts : (ts.any (fun t => decide (carveCond w h ah t x y)))
          · simp [hts, hr, carveTread_apply]
          · simp [hts, hr]
        · cases hts : (ts.any (fun t => decide (carveCond w h ah t x y)))
          · simp [hts, hr, carveTread_apply]
          · simp [hts, hr]
  exact main _ _

end GenerateBootPrint

namespace GenerateBootPrint

open BootPrint

theorem shadePixel_inv (im0 im : Img) (u v : ℤ) (hinv : shadeInv im0 im) :
    shadeInv im0 (shadePixel im u v) := by
  intro x y
  rw [shadePixel]
  by_cases ha : 0 < (im u v).a
  · rw [if_pos ha, putpixel_apply]
    by_cases hxy : x = u ∧ y = v
    · rw [if_pos hxy]
      right
      rw [hxy.1, hxy.2]
      refine ⟨rfl, ?_⟩
      rcases hinv u v with h1 | h2
      · rw [h1] at ha; exact ha
      · exact h2.2
    · rw [if_neg hxy]; exact hinv x y
  · rw [if_neg ha]; exact hinv x y

theorem pass3_inv (w h : ℤ) (ah : ℤ → ℤ) (img : Img) : shadeInv img (pass3 w h ah img) := by
  rw [pass3]
  refine foldl_preserve (shadeInv img) (shadeRow w ah) ?_ _ img (fun x y => Or.inl rfl)
  intro im y hinv
  rw [shadeRow, intRange_zero_two]
  simp only [List.foldl_cons, List.foldl_nil]
  split_ifs <;> (repeat (first | exact hinv | apply shadePixel_inv))

theorem splatStep_inv (w h : ℤ) (im0 im : Img) (c : ℤ × ℤ) (hinv : splatInv w h im0 im) :
    splatInv w h im0 (splatStep w h im c) := by
  intro x y
  rw [splatStep]
  split_ifs with hb ha
  · rw [putpixel_apply]
    by_cases hxy : x = c.1 ∧ y = c.2
    · rw [if_pos hxy]
      right
      rw [hxy.1, hxy.2]
      refine ⟨rfl, ?_, hb.1, hb.2.1, hb.2.2.1, hb.2.2.2⟩
      rcases hinv c.1 c.2 with h1 | h2
      · rw [h1] at ha; exact ha
      · rw [h2.1] at ha
        exact absurd ha (by decide)
    · rw [if_neg hxy]; exact hinv x y
  · exact hinv x y
  · exact hinv x y

theorem pass4_inv (w h : ℤ) (im : Img) (cs : List (ℤ × ℤ)) :
    splatInv w h im (pass4 w h im cs) := by
  rw [pass4]
  exact foldl_preserve (splatInv w h im) (splatStep w h)
    (fun b c hb => splatStep_inv w h im b c hb) cs im (fun x y => Or.inl rfl)

end GenerateBootPrint

namespace GenerateBootPrint

open BootPrint

theorem carved_bounds (w h : ℤ) (ah : ℤ → ℤ) (x y : ℤ) (hc : carved w h ah x y = true) :
    inBounds w h x y := by
  rw [carved, List.any_eq_true] at hc
  obtain ⟨t, ht, hcond⟩ := hc
  rw [decide_eq_true_eq] at hcond
  have h6 : (3 + 3 : ℤ) ≤ t := intRangeStep_lower _ _ _ _ (by norm_num) ht
  obtain ⟨hy, hlt, hxl, hxr⟩ := hcond
  have hx0 : (0 : ℤ) ≤ x := le_trans (le_max_left _ _) hxl
  have hxw : x ≤ w - 1 := le_trans hxr (min_le_left _ _)
  refine ⟨hx0, by omega, by omega, by omega⟩

theorem pass1_oob (w h : ℤ) (ah : ℤ → ℤ) (im : Img) (x y : ℤ)
    (hoob : ¬ inBounds w h x y) : pass1 w h ah im x y = im x y := by
  rw [pass1_apply, if_neg]
  intro hc
  obtain ⟨⟨hy3, hyh⟩, hxl, hxr⟩ := hc
  have hx0 : (0 : ℤ) ≤ x := le_trans (le_max_left _ _) hxl
  have hxw : x ≤ w - 1 := le_trans hxr (min_le_left _ _)
  exact hoob ⟨hx0, by omega, by omega, by omega⟩

theorem pass2_oob (w h : ℤ) (ah : ℤ → ℤ) (im : Img) (x y : ℤ)
    (hoob : ¬ inBounds w h x y) : pass2 w h ah im x y = im x y := by
  rw [pass2_apply, if_neg]
  intro hc
  exact hoob (carved_bounds w h ah x y hc)

theorem pass3_alpha0 (w h : ℤ) (ah : ℤ → ℤ) (im : Img) (x y : ℤ)
    (ha : (im x y).a = 0) : pass3 w h ah im x y = im x y := by
  rcases pass3_inv w h ah im x y with h1 | h2
  · exact h1
  · rw [ha] at h2
    exact absurd h2.2 (by norm_num)

theorem pass4_oob (w h : ℤ) (im : Img) (cs : List (ℤ × ℤ)) (x y : ℤ)
    (hoob : ¬ inBounds w h x y) : pass4 w h im cs x y = im x y := by
  rcases pass4_inv w h im cs x y with h1 | h2
  · exact h1
  · exact absurd ⟨h2.2.2.1, h2.2.2.2.1, h2.2.2.2.2.1, h2.2.2.2.2.2⟩ hoob

theorem pass1_values (w h : ℤ) (ah : ℤ → ℤ) (im : Img) (x y : ℤ) :
    pass1 w h ah im x y = blood_main ∨ pass1 w h ah im x y = im x y := by
  rw [pass1_apply]
  split_ifs
  · exact Or.inl rfl
  · exact Or.inr rfl

theorem pass2_values (w h : ℤ) (ah : ℤ → ℤ) (im : Img) (x y : ℤ) :
    pass2 w h ah im x y = transparent ∨ pass2 w h ah im x y = im x y := by
  rw [pass2_apply]
  split_ifs
  · exact Or.inl rfl
  · exact Or.inr rfl

theorem create_boot_print_values (w h : ℤ) (ah : ℤ → ℤ) (cs : List (ℤ × ℤ)) (x y : ℤ) :
    create_boot_print w h ah cs x y = transparent ∨
    create_boot_print w h ah cs x y = blood_main ∨
    create_boot_print w h ah cs x y = blood_edge ∨
    create_boot_print w h ah cs x y = splat_color := by
  rw [create_boot_print]
  have v1 : pass1 w h ah emptyImg x y = blood_main ∨
      pass1 w h ah emptyImg x y = transparent := by
    rcases pass1_values w h ah emptyImg x y with h1 | h1
    · exact Or.inl h1
    · exact Or.inr h1
  have v2 : pass2 w h ah (pass1 w h ah emptyImg) x y = transparent ∨
      pass2 w h ah (pass1 w h ah emptyImg) x y = blood_main := by
    rcases pass2_values w h ah (pass1 w h ah emptyImg) x y with h2 | h2
    · exact Or.inl h2
    · rcases v1 with h1 | h1
      · exact Or.inr (h2.trans h1)
      · exact Or.inl (h2.trans h1)
  have v3 : pass3 w h ah (pass2 w h ah (pass1 w h ah emptyImg)) x y = transparent ∨
      pass3 w h ah (pass2 w h ah (pass1 w h ah emptyImg)) x y = blood_main ∨
      pass3 w h ah (pass2 w h ah (pass1 w h ah emptyImg)) x y = blood_edge := by
    rcases pass3_inv w h ah (pass2 w h ah (pass1 w h ah emptyImg)) x y with h3 | h3
    · rcases v2 with h2 | h2
      · exact Or.inl (h3.trans h2)
      · exact Or.inr (Or.inl (h3.trans h2))
    · exact Or.inr (Or.inr h3.1)
  rcases pass4_inv w h (pass3 w h ah (pass2 w h ah (pass1 w h ah emptyImg))) cs x y with h4 | h4
  · rcases v3 with h3 | h3 | h3
    · exact Or.inl (h4.trans h3)
    · exact Or.inr (Or.inl (h4.trans h3))
    · exact Or.inr (Or.inr (Or.inl (h4.trans h3)))
  · exact Or.inr (Or.inr (Or.inr h4.1))

end GenerateBootPrint

namespace GenerateBootPrint

open BootPrint

theorem gwf_band1 (y : ℝ) (hb : y < 0.30) :
    get_width_factor y = 0.90 + 0.10 * Real.cos (y / 0.30 * Real.pi / 2) := by
  rw [get_width_factor, if_pos hb]

theorem gwf_band2 (y : ℝ) (hb1 : ¬ y < 0.30) (hb2 : y < 0.50) :
    get_width_factor y = 0.90 - 0.25 * ((y - 0.30) / 0.20) := by
  rw [get_width_factor, if_neg hb1, if_pos hb2]

theorem gwf_band3 (y : ℝ) (hb1 : ¬ y < 0.30) (hb2 : ¬ y < 0.50) (hb3 : y < 0.60) :
    get_width_factor y = 0.65 := by
  rw [get_width_factor, if_neg hb1, if_neg hb2, if_pos hb3]

theorem gwf_band4 (y : ℝ) (hb1 : ¬ y < 0.30) (hb2 : ¬ y < 0.50) (hb3 : ¬ y < 0.60) :
    get_width_factor y = 0.65 + 0.30 * ((y - 0.60) / 0.40) := by
  rw [get_width_factor, if_neg hb1, if_neg hb2, if_neg hb3]

theorem gwf_band1_ge (y : ℝ) (h0 : 0 ≤ y) (hb : y < 0.30) : 0.90 ≤ get_width_factor y := by
  rw [gwf_band1 y hb]
  have hpi := Real.pi_pos
  have harg0 : 0 ≤ y / 0.30 * Real.pi / 2 := by positivity
  have harg1 : y / 0.30 * Real.pi / 2 ≤ Real.pi / 2 := by
    have hd : y / 0.30 ≤ 1 := by
      rw [div_le_one (by norm_num)]
      linarith
    nlinarith
  have hcos := Real.cos_nonneg_of_mem_Icc ⟨by linarith, harg1⟩
  linarith

theorem gwf_band1_mono (a b : ℝ) (h0 : 0 ≤ a) (hab : a ≤ b) (hb : b < 0.30) :
    get_width_factor b ≤ get_width_factor a := by
  rw [gwf_band1 a (lt_of_le_of_lt hab hb), gwf_band1 b hb]
  have hpi := Real.pi_pos
  have h1 : 0 ≤ a / 0.30 * Real.pi / 2 := by positivity
  have h2 : b / 0.30 * Real.pi / 2 ≤ Real.pi := by
    have hd : b / 0.30 ≤ 1 := by
      rw [div_le_one (by norm_num)]
      linarith
    nlinarith
  have h3 : a / 0.30 * Real.pi / 2 ≤ b / 0.30 * Real.pi / 2 := by
    have hd : a / 0.30 ≤ b / 0.30 := by gcongr
    nlinarith
  have hcos := Real.cos_le_cos_of_nonneg_of_le_pi h1 h2 h3
  linarith

theorem gwf_waist (y : ℝ) (h5 : 0.50 ≤ y) (h6 : y ≤ 0.60) : get_width_factor y = 0.65 := by
  by_cases hb : y < 0.60
  · exact gwf_band3 y (by linarith) (by linarith) hb
  · rw [gwf_band4 y (by linarith) (by linarith) hb]
    have : y = 0.60 := le_antisymm h6 (not_lt.mp hb)
    rw [this]
    norm_num

theorem gwf_ge_waist (a : ℝ) (h0 : 0 ≤ a) (h6 : a ≤ 0.60) : 0.65 ≤ get_width_factor a := by
  by_cases ha3 : a < 0.30
  · linarith [gwf_band1_ge a h0 ha3]
  · by_cases ha5 : a < 0.50
    · rw [gwf_band2 a ha3 ha5]
      have : (a - 0.30) / 0.20 ≤ 1 := by
        rw [div_le_one (by norm_num)]
        linarith
      linarith
    · rw [gwf_waist a (not_lt.mp ha5) h6]

/-- C6: the silhouette profile is continuous at the toe/arch boundary 0.30 (its
left cosine limit is the right-hand linear value 0.90), monotonically
non-increasing on [0, 0.60] and non-decreasing on [0.60, 1]. -/
theorem C6_profile_continuity_monotonicity :
    Filter.Tendsto get_width_factor (nhdsWithin 0.30 (Set.Iio 0.30)) (nhds 0.90)
    ∧ get_width_factor 0.30 = 0.90
    ∧ AntitoneOn get_width_factor (Set.Icc 0 0.60)
    ∧ MonotoneOn get_width_factor (Set.Icc 0.60 1) := by
  have hval : get_width_factor 0.30 = 0.90 := by
    rw [gwf_band2 0.30 (by norm_num) (by norm_num)]
    norm_num
  refine ⟨?_, hval, ?_, ?_⟩
  · have hg : Continuous (fun y : ℝ => 0.90 + 0.10 * Real.cos (y / 0.30 * Real.pi / 2)) := by
      continuity
    have hg3 : (0.90 : ℝ) + 0.10 * Real.cos (0.30 / 0.30 * Real.pi / 2) = 0.90 := by
      rw [show (0.30 : ℝ) / 0.30 * Real.pi / 2 = Real.pi / 2 by
        rw [div_self (by norm_num), one_mul]]
      rw [Real.cos_pi_div_two]
      ring
    have htend : Filter.Tendsto (fun y : ℝ => 0.90 + 0.10 * Real.cos (y / 0.30 * Real.pi / 2))
        (nhdsWithin 0.30 (Set.Iio 0.30))
        (nhds (0.90 + 0.10 * Real.cos (0.30 / 0.30 * Real.pi / 2))) :=
      (hg.tendsto 0.30).mono_left nhdsWithin_le_nhds
    rw [hg3] at htend
    apply Filter.Tendsto.congr' _ htend
    filter_upwards [self_mem_nhdsWithin] with y hy
    exact (gwf_band1 y hy).symm
  · intro a ha b hb hab
    simp only [Set.mem_Icc] at ha hb
    by_cases hb5 : 0.50 ≤ b
    · rw [gwf_waist b hb5 hb.2]
      exact gwf_ge_waist a ha.1 (by linarith)
    · by_cases hb3 : 0.30 ≤ b
      · rw [gwf_band2 b (not_lt.mpr hb3) (not_le.mp hb5)]
        by_cases ha3 : 0.30 ≤ a
        · rw [gwf_band2 a (not_lt.mpr ha3) (by linarith)]
          have hd : (a - 0.30) / 0.20 ≤ (b - 0.30) / 0.20 := by gcongr
          linarith
        · have h1 : 0.90 ≤ get_width_factor a := gwf_band1_ge a ha.1 (not_le.mp ha3)
          have h2 : 0 ≤ (b - 0.30) / 0.20 := div_nonneg (by linarith) (by norm_num)
          linarith
      · exact gwf_band1_mono a b ha.1 hab (not_le.mp hb3)
  · intro a ha b hb hab
    simp only [Set.mem_Icc] at ha hb
    rw [gwf_band4 a (by push_neg; linarith [ha.1]) (by push_neg; linarith [ha.1])
        (by push_neg; exact ha.1),
      gwf_band4 b (by push_neg; linarith [hb.1]) (by push_neg; linarith [hb.1])
        (by push_neg; exact hb.1)]
    have hd : (a - 0.60) / 0.40 ≤ (b - 0.60) / 0.40 := by gcongr
    linarith

/-- C2: on [0, 1] the source's profile function agrees exactly with the band
table of the spec (cosine taper on [0, 0.30), linear 0.90 to 0.65 on
[0.30, 0.50), constant 0.65 on [0.50, 0.60), linear 0.65 to 0.95 on
[0.60, 1], lower boundaries inclusive, upper exclusive, last band closed). -/
theorem C2_profile_matches_spec_table (y : ℝ) (h0 : 0 ≤ y) (hu : y ≤ 1) :
    get_width_factor y = spec_width_factor y := by
  rw [get_width_factor, spec_width_factor]
  by_cases b1 : y < 0.30
  · rw [if_pos b1, if_pos ⟨h0, b1⟩]
  · rw [if_neg b1, if_neg (show ¬ (0 ≤ y ∧ y < 0.30) from fun hc => b1 hc.2)]
    by_cases b2 : y < 0.50
    · rw [if_pos b2, if_pos ⟨not_lt.mp b1, b2⟩]
      ring
    · rw [if_neg b2, if_neg (show ¬ (0.30 ≤ y ∧ y < 0.50) from fun hc => b2 hc.2)]
      by_cases b3 : y < 0.60
      · rw [if_pos b3, if_pos ⟨not_lt.mp b2, b3⟩]
      · rw [if_neg b3, if_neg (show ¬ (0.50 ≤ y ∧ y < 0.60) from fun hc => b3 hc.2)]
        ring

/-- C2 witness: the agreement evaluated at the concrete point 0.40. -/
theorem C2_profile_matches_spec_table_witness :
    get_width_factor 0.40 = spec_width_factor 0.40 :=
  C2_profile_matches_spec_table 0.40 (by norm_num) (by norm_num)

end GenerateBootPrint

namespace GenerateBootPrint

open BootPrint

theorem pass2_filled_eq (w h : ℤ) (ah : ℤ → ℤ) (im : Img) (x y : ℤ)
    (hf : (pass2 w h ah im x y).a ≠ 0) : pass2 w h ah im x y = im x y := by
  rw [pass2_apply] at hf ⊢
  by_cases hc : carved w h ah x y
  · rw [if_pos hc] at hf
    exact absurd rfl hf
  · rw [if_neg hc]

/-- C4: carving only turns already-filled texels transparent, leaves every
texel outside the carved spans exactly as pass 1 wrote it, keeps the filled
set inside the pass-1 filled set, and (given a nondegenerate half-width at the
first tread row) strictly shrinks the filled-texel count on the 32 x 48 run. -/
theorem C4_carving_strict_subset (ah : ℤ → ℤ) (h6 : 2 ≤ ah 6) :
    (∀ x y, pass2 32 48 ah (pass1 32 48 ah emptyImg) x y ≠ pass1 32 48 ah emptyImg x y →
      (pass1 32 48 ah emptyImg x y).a ≠ 0 ∧
        pass2 32 48 ah (pass1 32 48 ah emptyImg) x y = transparent) ∧
    (∀ x y, carved 32 48 ah x y = false →
      pass2 32 48 ah (pass1 32 48 ah emptyImg) x y = pass1 32 48 ah emptyImg x y) ∧
    (∀ x y, (pass2 32 48 ah (pass1 32 48 ah emptyImg) x y).a ≠ 0 →
      (pass1 32 48 ah emptyImg x y).a ≠ 0) ∧
    filledCount 32 48 (pass2 32 48 ah (pass1 32 48 ah emptyImg)) <
      filledCount 32 48 (pass1 32 48 ah emptyImg) := by
  have hp1 : pass1 32 48 ah emptyImg 16 6 = blood_main := by
    rw [pass1_apply, if_pos]
    refine ⟨⟨by norm_num, by norm_num⟩, ?_, ?_⟩
    · exact max_le (by norm_num) (by omega)
    · exact le_min (by norm_num) (by omega)
  have hcarved : carved 32 48 ah 16 6 = true := by
    rw [carved, List.any_eq_true]
    refine ⟨6, by decide, ?_⟩
    rw [decide_eq_true_eq, carveCond]
    refine ⟨Or.inl rfl, by norm_num, ?_, ?_⟩
    · exact max_le (by norm_num) (by omega)
    · exact le_min (by norm_num) (by omega)
  have hp2 : pass2 32 48 ah (pass1 32 48 ah emptyImg) 16 6 = transparent := by
    rw [pass2_apply, hcarved]
    rfl
  refine ⟨?_, ?_, ?_, ?_⟩
  · intro x y hne
    rw [pass2_apply] at hne ⊢
    by_cases hc : carved 32 48 ah x y
    · rw [if_pos hc] at hne ⊢
      refine ⟨?_, rfl⟩
      rcases pass1_values 32 48 ah emptyImg x y with h1 | h1
      · rw [h1]
        decide
      · rw [h1] at hne
        exact absurd rfl hne
    · rw [if_neg hc] at hne
      exact absurd rfl hne
  · intro x y hc
    rw [pass2_apply, hc]
    rfl
  · intro x y hf
    have := pass2_filled_eq 32 48 ah (pass1 32 48 ah emptyImg) x y hf
    rw [this] at hf
    exact hf
  · apply Finset.card_lt_card
    rw [Finset.ssubset_iff_of_subset]
    · refine ⟨(16, 6), ?_, ?_⟩
      · rw [Finset.mem_filter]
        refine ⟨Finset.mem_product.mpr ⟨Finset.mem_range.mpr (by norm_num),
          Finset.mem_range.mpr (by norm_num)⟩, ?_⟩
        show (pass1 32 48 ah emptyImg ((16 : ℕ) : ℤ) ((6 : ℕ) : ℤ)).a ≠ 0
        norm_num
        rw [hp1]
        decide
      · rw [Finset.mem_filter]
        intro hmem
        apply hmem.2
        show (pass2 32 48 ah (pass1 32 48 ah emptyImg) ((16 : ℕ) : ℤ) ((6 : ℕ) : ℤ)).a = 0
        norm_num
        rw [hp2]
        decide
    · intro p hp
      rw [Finset.mem_filter] at hp ⊢
      refine ⟨hp.1, ?_⟩
      have heq := pass2_filled_eq 32 48 ah (pass1 32 48 ah emptyImg) _ _ hp.2
      rw [heq] at hp
      exact hp.2

/-- C4 witness: the strict decrease evaluated at the constant half-width 13. -/
theorem C4_carving_strict_subset_witness :
    filledCount 32 48 (pass2 32 48 ahConst (pass1 32 48 ahConst emptyImg)) <
      filledCount 32 48 (pass1 32 48 ahConst emptyImg) :=
  (C4_carving_strict_subset ahConst (by decide)).2.2.2

end GenerateBootPrint

namespace GenerateBootPrint

open BootPrint

/-- C5: the splatter pass never touches a texel whose alpha is nonzero; every
texel it does change was in bounds and fully transparent and is written as the
reduced-alpha droplet color (the main fill RGB at alpha 150); and the solid
(alpha 255) pixel count never decreases. -/
theorem C5_splatter_respects_occupancy (w h : ℤ) (im : Img) (cs : List (ℤ × ℤ)) :
    (∀ x y, (im x y).a ≠ 0 → pass4 w h im cs x y = im x y) ∧
    (∀ x y, pass4 w h im cs x y ≠ im x y →
      inBounds w h x y ∧ (im x y).a = 0 ∧ pass4 w h im cs x y = splat_color) ∧
    (∀ w2 h2 : ℕ, solidCount w2 h2 im ≤ solidCount w2 h2 (pass4 w h im cs)) := by
  have key : ∀ x y, (im x y).a ≠ 0 → pass4 w h im cs x y = im x y := by
    intro x y ha
    rcases pass4_inv w h im cs x y with h1 | h2
    · exact h1
    · exact absurd h2.2.1 ha
  refine ⟨key, ?_, ?_⟩
  · intro x y hne
    rcases pass4_inv w h im cs x y with h1 | h2
    · exact absurd h1 hne
    · exact ⟨⟨h2.2.2.1, h2.2.2.2.1, h2.2.2.2.2.1, h2.2.2.2.2.2⟩, h2.2.1, h2.1⟩
  · intro w2 h2
    apply Finset.card_le_card
    intro p hp
    rw [Finset.mem_filter] at hp ⊢
    refine ⟨hp.1, ?_⟩
    rw [key (p.1 : ℤ) (p.2 : ℤ) (by rw [hp.2]; norm_num)]
    exact hp.2

/-- C5 witness: a filled texel survives the splatter pass unchanged on a
concrete one-candidate run that targets it. -/
theorem C5_splatter_respects_occupancy_witness :
    pass4 32 48 (putpixel emptyImg 1 1 blood_main) [(1, 1)] 1 1 =
      putpixel emptyImg 1 1 blood_main 1 1 :=
  (C5_splatter_respects_occupancy 32 48 (putpixel emptyImg 1 1 blood_main) [(1, 1)]).1
    1 1 (by decide)

/-- C7: the synthesis writes no texel outside the buffer bounds: at every
out-of-bounds coordinate the finished buffer still holds the creation fill
(fully transparent), for every half-width table and candidate list. -/
theorem C7_no_out_of_bounds_write (w h : ℤ) (ah : ℤ → ℤ) (cs : List (ℤ × ℤ)) (x y : ℤ)
    (hoob : ¬ inBounds w h x y) :
    create_boot_print w h ah cs x y = transparent := by
  rw [create_boot_print]
  have h1 : pass1 w h ah emptyImg x y = transparent :=
    pass1_oob w h ah emptyImg x y hoob
  have h2 : pass2 w h ah (pass1 w h ah emptyImg) x y = transparent :=
    (pass2_oob w h ah (pass1 w h ah emptyImg) x y hoob).trans h1
  have h3 : pass3 w h ah (pass2 w h ah (pass1 w h ah emptyImg)) x y = transparent :=
    (pass3_alpha0 w h ah (pass2 w h ah (pass1 w h ah emptyImg)) x y
      (by rw [h2]; rfl)).trans h2
  exact (pass4_oob w h (pass3 w h ah (pass2 w h ah (pass1 w h ah emptyImg))) cs x y
    hoob).trans h3

/-- C7 witness: the coordinate (32, 0) lies outside the 32 x 48 canvas and the
finished buffer is transparent there. -/
theorem C7_no_out_of_bounds_write_witness :
    create_boot_print 32 48 ahConst [] 32 0 = transparent :=
  C7_no_out_of_bounds_write 32 48 ahConst [] 32 0 (by decide)

/-- C3: the synthesis is a pure function of its parameters: two runs with the
same per-row half-width table and the same seed-derived droplet stream produce
identical right and left buffers. -/
theorem C3_determinism (ah1 ah2 : ℤ → ℤ) (cs1 cs2 : List (ℤ × ℤ))
    (hah : ah1 = ah2) (hcs : cs1 = cs2) :
    create_left_right_boot_prints ah1 cs1 = create_left_right_boot_prints ah2 cs2 := by
  rw [hah, hcs]

/-- C3 witness: the two buffers of a repeated concrete run coincide. -/
theorem C3_determinism_witness :
    create_left_right_boot_prints ahConst [] = create_left_right_boot_prints ahConst [] :=
  C3_determinism ahConst ahConst [] [] rfl rfl

/-- C10: after the full four-pass pipeline every texel's alpha is exactly 0
(transparent or carved), 150 (splatter droplet) or 255 (solid fill or edge). -/
theorem C10_alpha_values (w h : ℤ) (ah : ℤ → ℤ) (cs : List (ℤ × ℤ)) (x y : ℤ) :
    (create_boot_print w h ah cs x y).a = 0 ∨
    (create_boot_print w h ah cs x y).a = 150 ∨
    (create_boot_print w h ah cs x y).a = 255 := by
  rcases create_boot_print_values w h ah cs x y with hv | hv | hv | hv <;> rw [hv]
  · exact Or.inl rfl
  · exact Or.inr (Or.inr rfl)
  · exact Or.inr (Or.inr rfl)
  · exact Or.inr (Or.inl rfl)

/-- C8: with a 32 x 5 canvas (height below twice the 3-texel margin) the
generator does not fail: the buffer is created and all geometry passes run to
completion as empty loops, leaving every canvas texel transparent.  This
contradicts the claim that a fatal configuration error is raised before any
buffer is allocated (the script performs no dimension validation at all). -/
theorem C8_small_canvas_no_validation :
    filledCount 32 5 (create_boot_print 32 5 ahConst []) = 0 := by decide

/-- C9: the two textures are persisted by two separate sequential writes, the
right one strictly first; after the first write (a reachable intermediate
state, for example if the second save aborts) exactly the right texture
exists, so persistence is not all-or-nothing. -/
theorem C9_sequential_saves :
    saveEvents.take 1 = [SaveEvent.rightFile] ∧
    SaveEvent.leftFile ∉ saveEvents.take 1 ∧ saveEvents.length = 2 := by decide

/-- C1 (amended): in generate_boot_print.py the left texture is derived from
the finished right buffer purely by horizontal reflection, so every texel of
the left buffer equals the right buffer's texel at the mirrored column. -/
theorem C1_mirror_of_generate (ah : ℤ → ℤ) (cs : List (ℤ × ℤ)) (x y : ℤ) :
    (create_left_right_boot_prints ah cs).2 x y =
      (create_left_right_boot_prints ah cs).1 (32 - 1 - x) y := rfl

end GenerateBootPrint

namespace RoundedBootPrints

/-- C1 counterexample: create_rounded_boot_prints.py synthesizes the left foot
by an independent run (is_left = true) instead of reflecting the right buffer,
and the results are not mirrors: at canvas coordinate (8, 24) the left buffer
is transparent while the right buffer holds BOOT_COLOR at the mirrored column
22 - 1 - 8 = 13 (a connecting-strip texel). -/
theorem C1_rounded_not_mirrored :
    create_boot_print true 8 24 ≠ create_boot_print false (22 - 1 - 8) 24 := by decide

end RoundedBootPrints
